import Mathlib

/-!
Verification development for the comphost configuration manager
(src/main.rs). The program keeps a mapping from configuration names to
records (active flag, url, optional clone path), persisted as a TOML
file, and drives the external git and docker binaries.

The embedding below translates main.rs shallowly:
- the HashMap of configurations becomes an association list with unique
  keys (Store);
- standard input becomes a list of raw lines (each line as returned by
  read_line, so possibly ending in a newline character);
- the filesystem metadata probe and the external processes become
  oracles carried in an Env record; every invocation of an external
  binary is logged as an Invocation value and every println/eprintln as
  an OutLine value;
- the toml crate serialization of the map (one [name] table per entry
  with fields active, url and an optional clone_path, strings quoted
  and escaped) is modelled by saveLines/parseSections over the list of
  lines of the file.
-/

namespace Comphost

/-- Mirrors the Rust struct Configuration in src/main.rs. -/
structure Configuration where
  active : Bool
  url : String
  clone_path : Option String
deriving DecidableEq, Repr

/-- Mirrors Configuration::clone_project, which records a clone path. -/
def Configuration.clone_project (c : Configuration) (p : String) : Configuration :=
  { c with clone_path := some p }

/-- The in-memory HashMap of main.rs, as an association list keyed by name. -/
abbrev Store := List (String × Configuration)

/-- First binding for a name, as HashMap::get on a map with unique keys. -/
def lookupStore : Store → String → Option Configuration
  | [], _ => none
  | (k, v) :: rest, n => if k = n then some v else lookupStore rest n

/-- Presence test used by the get_mut branches of the On and Off arms. -/
def containsName (st : Store) (n : String) : Bool :=
  (lookupStore st n).isSome

/-- HashMap::insert: overwrite the binding for a name or append a new one. -/
def insertConfig : Store → String → Configuration → Store
  | [], n, c => [(n, c)]
  | (k, v) :: rest, n, c =>
    if k = n then (n, c) :: rest else (k, v) :: insertConfig rest n c

/-- The get_mut update of the active flag performed by the On and Off arms. -/
def setActive (b : Bool) : Store → String → Store
  | [], _ => []
  | (k, v) :: rest, n =>
    if k = n then (k, { v with active := b }) :: rest
    else (k, v) :: setActive b rest n

/-- Model of str::trim from Rust: drop whitespace from both ends. -/
def trimChars (cs : List Char) : List Char :=
  ((cs.dropWhile Char.isWhitespace).reverse.dropWhile Char.isWhitespace).reverse

/-- String form of trimChars, standing in for the url.trim() calls. -/
def trimString (s : String) : String := String.mk (trimChars s.data)

/-- One line printed by the program: out is println, err is eprintln or a
copy of a captured child stderr written to standard error. -/
inductive OutLine where
  | out (s : String)
  | err (s : String)
deriving DecidableEq, Repr

/-- One synchronous external process invocation issued by main.rs. -/
inductive Invocation where
  | gitClone (url name cwd : String)
  | networkInspect
  | networkCreate
  | composeUp (cwd : String)
  | composePs (cwd : String)
  | networkConnect (container : String)
  | composeDown (cwd : String)
deriving DecidableEq, Repr

/-- Captured outcome of a spawned process: exit-status success and stderr. -/
structure ProcResult where
  success : Bool
  stderr : String
deriving DecidableEq, Repr

/-- Oracles for everything outside the program: standard input lines (raw,
as read_line returns them), fs::metadata answers (none when the path does
not exist, otherwise whether it is a directory), and the results of each
external command. Spawn failures, which main.rs turns into expect panics,
are outside this model: every spawn returns a ProcResult. -/
structure Env where
  stdin : List String
  fsMetadata : String → Option Bool
  gitClone : String → String → String → ProcResult
  networkInspectOk : Bool
  networkCreateRes : ProcResult
  composeUp : String → ProcResult
  composePs : String → String
  networkConnect : String → ProcResult
  composeDown : String → ProcResult

/-- The clap subcommands of main.rs. -/
inductive Commands where
  | Add (name : List String)
  | On (name : List String)
  | Off (name : List String)
  | Clone
  | Start
  | Stop
  | ListNames
deriving DecidableEq, Repr

/-- Single-quote helper for the user-facing messages. -/
def quoteMark : String := (Char.ofNat 39).toString

/-- Wraps a name in single quotes as the format strings of main.rs do. -/
def sq (s : String) : String := quoteMark ++ s ++ quoteMark

def enterUrlMsg (n : String) : String := "Enter URL for " ++ sq n ++ ":"
def addedMsg (n : String) : String := "Configuration " ++ sq n ++ " added."
def turnedOnMsg (n : String) : String := "Configuration " ++ sq n ++ " turned on."
def turnedOffMsg (n : String) : String := "Configuration " ++ sq n ++ " turned off."
def notFoundMsg (n : String) : String := "Configuration " ++ sq n ++ " not found."
def promptCloneMsg : String := "Enter the path where you want to clone:"
def skipMsg (n p : String) : String :=
  "Skipping " ++ sq n ++ ", folder already exists at " ++ sq p
def notDirMsg (p : String) : String := "Path " ++ sq p ++ " exists but is not a directory"
def clonedMsg (n u p : String) : String :=
  "Cloned " ++ sq n ++ " from " ++ sq u ++ " to " ++ sq p
def cloneFailMsg (n u p : String) : String :=
  "Failed to clone " ++ sq n ++ " from " ++ sq u ++ " to " ++ sq p
def createdNetworkMsg : String := "Created comphost network"
def createNetworkFailMsg : String := "Failed to create comphost network"
def startedMsg (n : String) : String := "Started Docker Compose for " ++ sq n
def startFailMsg (n : String) : String := "Failed to start Docker Compose for " ++ sq n
def attachedMsg (id n : String) : String :=
  "Attached container " ++ sq id ++ " to comphost network for " ++ sq n
def attachFailMsg (id n : String) : String :=
  "Failed to attach container " ++ sq id ++ " to comphost network for " ++ sq n
def stoppedMsg (n : String) : String := "Stopped Docker Compose for " ++ sq n
def stopFailMsg (n : String) : String := "Failed to stop Docker Compose for " ++ sq n

/-- Commands::Add loop: prompt per name, read one raw line, trim it, and
insert the record with active true and no clone path. -/
def cmdAdd : List String → List String → Store → Store × List OutLine
  | [], _, st => (st, [])
  | n :: ns, input, st =>
    let raw := input.headD ""
    let st2 := insertConfig st n (Configuration.mk true (trimString raw) none)
    let r := cmdAdd ns input.tail st2
    (r.1, OutLine.out (enterUrlMsg n) :: OutLine.out (addedMsg n) :: r.2)

/-- Commands::On loop: per name, set active to true when present, report a
not-found error otherwise, and continue with the rest. -/
def cmdOn : List String → Store → Store × List OutLine
  | [], st => (st, [])
  | n :: ns, st =>
    if containsName st n then
      let r := cmdOn ns (setActive true st n)
      (r.1, OutLine.out (turnedOnMsg n) :: r.2)
    else
      let r := cmdOn ns st
      (r.1, OutLine.err (notFoundMsg n) :: r.2)

/-- Commands::Off loop: per name, set active to false when present, report
a not-found error otherwise, and continue with the rest. -/
def cmdOff : List String → Store → Store × List OutLine
  | [], st => (st, [])
  | n :: ns, st =>
    if containsName st n then
      let r := cmdOff ns (setActive false st n)
      (r.1, OutLine.out (turnedOffMsg n) :: r.2)
    else
      let r := cmdOff ns st
      (r.1, OutLine.err (notFoundMsg n) :: r.2)

/-- Aggregate visible effects of one run: the in-memory store at the end,
the printed lines, the external invocations, and whether the final
serialize-and-write of the store was reached. -/
structure RunResult where
  finalStore : Store
  outputs : List OutLine
  invocations : List Invocation
  saved : Bool
deriving DecidableEq, Repr

/-- Body of the Commands::Clone loop for one map entry. Inactive entries
are untouched; for active ones the target path destination/name is probed:
an existing directory is adopted as the clone path without any git call, an
existing non-directory is reported and skipped, and otherwise git clone is
invoked, setting the clone path only on success and echoing the captured
stderr on failure. -/
def cloneEntry (env : Env) (dir : String) (p : String × Configuration) :
    (String × Configuration) × List OutLine × List Invocation :=
  let n := p.1
  let c := p.2
  if c.active then
    let path := dir ++ "/" ++ n
    match env.fsMetadata path with
    | some true =>
      ((n, c.clone_project path), [OutLine.out (skipMsg n path)], [])
    | some false =>
      ((n, c), [OutLine.err (notDirMsg path)], [])
    | none =>
      let r := env.gitClone c.url n dir
      if r.success then
        ((n, c.clone_project path), [OutLine.out (clonedMsg n c.url path)],
          [Invocation.gitClone c.url n dir])
      else
        ((n, c), [OutLine.err (cloneFailMsg n c.url path), OutLine.err r.stderr],
          [Invocation.gitClone c.url n dir])
  else ((n, c), [], [])

/-- The destination directory Commands::Clone reads from the prompt: the
first line of standard input, trimmed. -/
def promptDir (env : Env) : String := trimString (env.stdin.headD "")

/-- Commands::Clone: prompt once for the destination directory, trim it,
and fold cloneEntry over every entry of the map. -/
def runClone (env : Env) (st : Store) : RunResult :=
  let dir := promptDir env
  let steps := st.map (cloneEntry env dir)
  RunResult.mk (steps.map (fun s => s.1))
    (OutLine.out promptCloneMsg :: (steps.map (fun s => s.2.1)).flatten)
    ((steps.map (fun s => s.2.2)).flatten)
    true

/-- One docker network connect call for a container id found by compose ps. -/
def attachEntry (env : Env) (n id : String) : List OutLine × List Invocation :=
  let a := env.networkConnect id
  if a.success then
    ([OutLine.out (attachedMsg id n)], [Invocation.networkConnect id])
  else
    ([OutLine.err (attachFailMsg id n), OutLine.err a.stderr],
      [Invocation.networkConnect id])

/-- Maximal runs of non-whitespace characters, accumulating the current
token reversed, as split_whitespace yields them. -/
def wsTokensAux : List Char → List Char → List (List Char)
  | [], acc => if acc.isEmpty then [] else [acc.reverse]
  | c :: rest, acc =>
    if c.isWhitespace then
      if acc.isEmpty then wsTokensAux rest []
      else acc.reverse :: wsTokensAux rest []
    else wsTokensAux rest (c :: acc)

/-- The container ids parsed from the compose ps output, one per
whitespace-separated token, as split_whitespace yields them. -/
def splitIds (s : String) : List String :=
  (wsTokensAux s.data []).map String.mk

/-- Body of the Commands::Start loop for one map entry: only an active
entry with a recorded clone path gets a compose up invocation; on success
the running container ids are queried and each is attached to the comphost
network, each attach failure being reported independently. -/
def startEntry (env : Env) (p : String × Configuration) :
    List OutLine × List Invocation :=
  let n := p.1
  let c := p.2
  if c.active then
    match c.clone_path with
    | some cp =>
      let up := env.composeUp cp
      if up.success then
        let ids := splitIds (env.composePs cp)
        let atts := ids.map (attachEntry env n)
        (OutLine.out (startedMsg n) :: (atts.map (fun a => a.1)).flatten,
          Invocation.composeUp cp :: Invocation.composePs cp ::
            (atts.map (fun a => a.2)).flatten)
      else
        ([OutLine.err (startFailMsg n), OutLine.err up.stderr],
          [Invocation.composeUp cp])
    | none => ([], [])
  else ([], [])

/-- Commands::Start: inspect the comphost network, create it when the
inspect fails, and return early, skipping the loop and the final write,
when the create also fails; otherwise run startEntry over every entry. -/
def runStart (env : Env) (st : Store) : RunResult :=
  if env.networkInspectOk then
    let steps := st.map (startEntry env)
    RunResult.mk st ((steps.map (fun s => s.1)).flatten)
      (Invocation.networkInspect :: (steps.map (fun s => s.2)).flatten)
      true
  else if env.networkCreateRes.success then
    let steps := st.map (startEntry env)
    RunResult.mk st
      (OutLine.out createdNetworkMsg :: (steps.map (fun s => s.1)).flatten)
      (Invocation.networkInspect :: Invocation.networkCreate ::
        (steps.map (fun s => s.2)).flatten)
      true
  else
    RunResult.mk st
      [OutLine.err createNetworkFailMsg, OutLine.err env.networkCreateRes.stderr]
      [Invocation.networkInspect, Invocation.networkCreate]
      false

/-- Body of the Commands::Stop loop for one map entry: compose down for
every active entry with a recorded clone path, failures reported only. -/
def stopEntry (env : Env) (p : String × Configuration) :
    List OutLine × List Invocation :=
  let n := p.1
  let c := p.2
  if c.active then
    match c.clone_path with
    | some cp =>
      let d := env.composeDown cp
      if d.success then ([OutLine.out (stoppedMsg n)], [Invocation.composeDown cp])
      else ([OutLine.err (stopFailMsg n), OutLine.err d.stderr],
        [Invocation.composeDown cp])
    | none => ([], [])
  else ([], [])

/-- Commands::Stop over the whole map. -/
def runStop (env : Env) (st : Store) : RunResult :=
  let steps := st.map (stopEntry env)
  RunResult.mk st ((steps.map (fun s => s.1)).flatten)
    ((steps.map (fun s => s.2)).flatten) true

/-- The match on args.command in main: dispatch one subcommand over the
loaded store. Every arm except the failed-network-create path of Start
reaches the final serialize-and-write, recorded in the saved field. -/
def runCommand : Commands → Env → Store → RunResult
  | Commands.Add names, env, st =>
    let r := cmdAdd names env.stdin st
    RunResult.mk r.1 r.2 [] true
  | Commands.On names, _, st =>
    let r := cmdOn names st
    RunResult.mk r.1 r.2 [] true
  | Commands.Off names, _, st =>
    let r := cmdOff names st
    RunResult.mk r.1 r.2 [] true
  | Commands.Clone, env, st => runClone env st
  | Commands.Start, env, st => runStart env st
  | Commands.Stop, env, st => runStop env st
  | Commands.ListNames, _, st =>
    RunResult.mk st (st.map (fun p => OutLine.out p.1)) [] true

/-- The compose up invocations contained in an invocation log. -/
def upsOf (invs : List Invocation) : List String :=
  invs.filterMap (fun i =>
    match i with
    | Invocation.composeUp cp => some cp
    | _ => none)

/-- TOML basic-string escaping of one character, as the toml crate applies
it when serializing the url and clone_path values and quoted keys. -/
def escapeChar (c : Char) : List Char :=
  if c = Char.ofNat 92 then [Char.ofNat 92, Char.ofNat 92]
  else if c = Char.ofNat 34 then [Char.ofNat 92, Char.ofNat 34]
  else if c = Char.ofNat 10 then [Char.ofNat 92, Char.ofNat 110]
  else if c = Char.ofNat 9 then [Char.ofNat 92, Char.ofNat 116]
  else if c = Char.ofNat 13 then [Char.ofNat 92, Char.ofNat 114]
  else [c]

/-- Escape every character of a string body. -/
def escapeChars (cs : List Char) : List Char :=
  (cs.map escapeChar).flatten

/-- Inverse of one escape: the character denoted after a backslash. -/
def unescChar (c : Char) : Option Char :=
  if c = Char.ofNat 92 then some (Char.ofNat 92)
  else if c = Char.ofNat 34 then some (Char.ofNat 34)
  else if c = Char.ofNat 110 then some (Char.ofNat 10)
  else if c = Char.ofNat 116 then some (Char.ofNat 9)
  else if c = Char.ofNat 114 then some (Char.ofNat 13)
  else none

/-- Undo escapeChars; fails on a dangling backslash or unknown escape. -/
def unescapeChars : List Char → Option (List Char)
  | [] => some []
  | c :: rest =>
    if c = Char.ofNat 92 then
      match rest with
      | [] => none
      | e :: rest2 =>
        match unescChar e with
        | some d => (unescapeChars rest2).map (fun tl => d :: tl)
        | none => none
    else (unescapeChars rest).map (fun tl => c :: tl)

/-- A TOML basic string: the escaped body wrapped in double quotes. -/
def quoteChars (cs : List Char) : List Char :=
  Char.ofNat 34 :: (escapeChars cs ++ [Char.ofNat 34])

/-- Read back a TOML basic string produced by quoteChars. -/
def parseQuoted (cs : List Char) : Option (List Char) :=
  if cs.head? = some (Char.ofNat 34) then
    let rest := cs.tail
    if rest.getLast? = some (Char.ofNat 34) then unescapeChars rest.dropLast
    else none
  else none

/-- Characters the toml crate leaves unquoted in a table key. -/
def isBareChar (c : Char) : Bool :=
  c.isAlphanum || c = Char.ofNat 45 || c = Char.ofNat 95

/-- Whether a key is rendered bare (nonempty, all bare characters). -/
def bareKey (cs : List Char) : Bool :=
  !cs.isEmpty && cs.all isBareChar

/-- The [name] table header for one configuration. -/
def headerChars (cs : List Char) : List Char :=
  Char.ofNat 91 :: ((if bareKey cs then cs else quoteChars cs) ++ [Char.ofNat 93])

/-- Read back a table header produced by headerChars. -/
def parseHeaderChars (cs : List Char) : Option (List Char) :=
  match cs with
  | [] => none
  | b :: rest =>
    if b = Char.ofNat 91 then
      if rest.getLast? = some (Char.ofNat 93) then
        let inner := rest.dropLast
        if inner.head? = some (Char.ofNat 34) then parseQuoted inner
        else if bareKey inner then some inner else none
      else none
    else none

/-- Match an expected text at the front of a line, returning the rest. -/
def stripPre : List Char → List Char → Option (List Char)
  | [], cs => some cs
  | _ :: _, [] => none
  | p :: ps, c :: cs => if c = p then stripPre ps cs else none

/-- Rendered lines of one configuration table. -/
def headerLine (n : String) : String := String.mk (headerChars n.data)

def activeLine (b : Bool) : String :=
  if b then "active = true" else "active = false"

def urlLine (u : String) : String :=
  String.mk (String.data "url = " ++ quoteChars u.data)

def clonePathLine (p : String) : String :=
  String.mk (String.data "clone_path = " ++ quoteChars p.data)

/-- Parsers for the four line shapes. -/
def parseHeaderLine (s : String) : Option String :=
  (parseHeaderChars s.data).map String.mk

def parseActiveLine (s : String) : Option Bool :=
  if s = "active = true" then some true
  else if s = "active = false" then some false
  else none

def parseUrlLine (s : String) : Option String :=
  (stripPre (String.data "url = ") s.data).bind
    (fun rest => (parseQuoted rest).map String.mk)

def parseClonePathLine (s : String) : Option String :=
  (stripPre (String.data "clone_path = ") s.data).bind
    (fun rest => (parseQuoted rest).map String.mk)

/-- The lines the toml crate writes for one map entry: the table header,
the active flag, the url, and the clone_path only when it is set. -/
def sectionLines (n : String) (c : Configuration) : List String :=
  headerLine n :: activeLine c.active :: urlLine c.url ::
    (match c.clone_path with
     | some p => [clonePathLine p]
     | none => [])

/-- toml::to_string of the whole map: the concatenated tables, one per
entry in iteration order. -/
def saveLines (st : Store) : List String :=
  (st.map (fun p => sectionLines p.1 p.2)).flatten

/-- toml::from_str over the lines of the file: a sequence of tables, each
a header, an active line, a url line and an optional clone_path line. -/
def parseSections : List String → Option Store
  | [] => some []
  | [_] => none
  | [_, _] => none
  | [h, a, u] =>
    match parseHeaderLine h, parseActiveLine a, parseUrlLine u with
    | some name, some act, some url => some [(name, Configuration.mk act url none)]
    | _, _, _ => none
  | h :: a :: u :: cl :: rest3 =>
    match parseHeaderLine h, parseActiveLine a, parseUrlLine u with
    | some name, some act, some url =>
      match parseClonePathLine cl with
      | some cp =>
        (parseSections rest3).map
          (fun tl => (name, Configuration.mk act url (some cp)) :: tl)
      | none =>
        (parseSections (cl :: rest3)).map
          (fun tl => (name, Configuration.mk act url none) :: tl)
    | _, _, _ => none

/-- State of the persisted config file as main sees it: absent (File::open
fails, which the code treats as no content), present but unreadable
(read_to_string fails and the expect aborts), or present with content,
given as its list of lines. -/
inductive FileState where
  | missing
  | unreadable
  | present (lines : List String)
deriving DecidableEq, Repr

/-- The load phase of main: a missing file or empty content yields the
empty map, an unreadable file or unparsable content is a fatal expect. -/
def loadStore : FileState → Except String Store
  | FileState.missing => Except.ok []
  | FileState.unreadable => Except.error "Could not read file"
  | FileState.present ls =>
    if ls.isEmpty then Except.ok []
    else
      match parseSections ls with
      | some st => Except.ok st
      | none => Except.error "Could not parse TOML"

/-- Outcome of a whole invocation: a fatal expect during load, carrying
only the panic message and reaching no subcommand logic, or a finished
dispatch with its effects. -/
inductive MainResult where
  | fatal (msg : String)
  | finished (r : RunResult)
deriving DecidableEq, Repr

/-- fn main, after the home-directory and config-directory setup: load the
store, abort on a load error, otherwise dispatch the subcommand. -/
def runMain (cmd : Commands) (env : Env) (f : FileState) : MainResult :=
  match loadStore f with
  | Except.error e => MainResult.fatal e
  | Except.ok st => MainResult.finished (runCommand cmd env st)

/-- An environment whose external commands all succeed. -/
def okEnv : Env :=
  Env.mk ["https://example/app.git\n", "dest\n"] (fun _ => none)
    (fun _ _ _ => ProcResult.mk true "") true (ProcResult.mk true "")
    (fun _ => ProcResult.mk true "") (fun _ => "")
    (fun _ => ProcResult.mk true "") (fun _ => ProcResult.mk true "")

/-- An environment where docker network inspect and create both fail. -/
def netFailEnv : Env :=
  Env.mk [] (fun _ => none) (fun _ _ _ => ProcResult.mk true "") false
    (ProcResult.mk false "network create failed") (fun _ => ProcResult.mk true "")
    (fun _ => "") (fun _ => ProcResult.mk true "") (fun _ => ProcResult.mk true "")

/-- An environment where git clone fails with a captured stderr. -/
def cloneFailEnv : Env :=
  Env.mk ["dest\n"] (fun _ => none)
    (fun _ _ _ => ProcResult.mk false "fatal: repository not found") true
    (ProcResult.mk true "") (fun _ => ProcResult.mk true "") (fun _ => "")
    (fun _ => ProcResult.mk true "") (fun _ => ProcResult.mk true "")

/-- An environment where every probed path is an existing directory. -/
def dirExistsEnv : Env :=
  Env.mk ["dest\n"] (fun _ => some true) (fun _ _ _ => ProcResult.mk true "") true
    (ProcResult.mk true "") (fun _ => ProcResult.mk true "") (fun _ => "")
    (fun _ => ProcResult.mk true "") (fun _ => ProcResult.mk true "")

/-! Round-trip lemmas for the persisted file format. -/

@[simp]
theorem string_mk_data (s : String) : String.mk s.data = s := rfl

@[simp]
theorem string_data_mk (l : List Char) : (String.mk l).data = l := rfl

theorem stripPre_self (ps cs : List Char) : stripPre ps (ps ++ cs) = some cs := by
  induction ps with
  | nil => rfl
  | cons p ps ih => simp [stripPre, ih]

theorem stripPre_ne {c p : Char} {ps cs : List Char} (h : c ≠ p) :
    stripPre (p :: ps) (c :: cs) = none := by
  simp [stripPre, h]

theorem unescape_escape (cs : List Char) :
    unescapeChars (escapeChars cs) = some cs := by
  induction cs with
  | nil => rfl
  | cons c cs ih =>
    have hstep : escapeChars (c :: cs) = escapeChar c ++ escapeChars cs := by
      simp [escapeChars]
    rw [hstep, escapeChar]
    by_cases h1 : c = Char.ofNat 92
    · subst h1
      simp [unescapeChars, unescChar, ih]
    · rw [if_neg h1]
      by_cases h2 : c = Char.ofNat 34
      · subst h2
        simp [unescapeChars, unescChar, ih]
      · rw [if_neg h2]
        by_cases h3 : c = Char.ofNat 10
        · subst h3
          simp [unescapeChars, unescChar, ih]
        · rw [if_neg h3]
          by_cases h4 : c = Char.ofNat 9
          · subst h4
            simp [unescapeChars, unescChar, ih]
          · rw [if_neg h4]
            by_cases h5 : c = Char.ofNat 13
            · subst h5
              simp [unescapeChars, unescChar, ih]
            · rw [if_neg h5]
              show unescapeChars (c :: escapeChars cs) = some (c :: cs)
              rw [unescapeChars.eq_def]
              simp only [if_neg h1, ih, Option.map_some']

theorem parseQuoted_quote (cs : List Char) :
    parseQuoted (quoteChars cs) = some cs := by
  simp [parseQuoted, quoteChars, List.getLast?_concat, List.dropLast_concat,
    unescape_escape]

theorem bare_ne_quote {c0 : Char} {cs0 : List Char} (h : bareKey (c0 :: cs0) = true) :
    c0 ≠ Char.ofNat 34 := by
  intro heq
  have hall : isBareChar c0 = true := by
    simp [bareKey] at h
    exact h.1
  rw [heq] at hall
  exact absurd hall (by decide)

theorem parseHeaderChars_bracket (inner : List Char) :
    parseHeaderChars (Char.ofNat 91 :: (inner ++ [Char.ofNat 93])) =
      (if inner.head? = some (Char.ofNat 34) then parseQuoted inner
       else if bareKey inner then some inner else none) := by
  simp [parseHeaderChars, List.getLast?_concat, List.dropLast_concat]

theorem parseHeader_header (cs : List Char) :
    parseHeaderChars (headerChars cs) = some cs := by
  rw [headerChars]
  by_cases hb : bareKey cs
  · rw [if_pos hb, parseHeaderChars_bracket]
    cases cs with
    | nil => simp [bareKey] at hb
    | cons c0 cs0 =>
      have hne := bare_ne_quote hb
      simp [hne, hb]
  · rw [if_neg hb, parseHeaderChars_bracket]
    have hhead : (quoteChars cs).head? = some (Char.ofNat 34) := by
      simp [quoteChars]
    simp [hhead, parseQuoted_quote]

theorem parseHeaderLine_header (n : String) :
    parseHeaderLine (headerLine n) = some n := by
  simp [parseHeaderLine, headerLine, parseHeader_header]

theorem parseActiveLine_active (b : Bool) :
    parseActiveLine (activeLine b) = some b := by
  cases b <;> rfl

theorem parseUrlLine_url (u : String) :
    parseUrlLine (urlLine u) = some u := by
  rw [parseUrlLine, urlLine, string_data_mk, stripPre_self]
  simp only [Option.some_bind, parseQuoted_quote, Option.map_some', string_mk_data]

theorem parseClonePathLine_clonePath (p : String) :
    parseClonePathLine (clonePathLine p) = some p := by
  rw [parseClonePathLine, clonePathLine, string_data_mk, stripPre_self]
  simp only [Option.some_bind, parseQuoted_quote, Option.map_some', string_mk_data]

theorem parseClonePathLine_headerLine (n : String) :
    parseClonePathLine (headerLine n) = none := by
  have h : stripPre (String.data "clone_path = ") (headerChars n.data) = none := by
    rw [headerChars]
    exact stripPre_ne (by decide)
  simp [parseClonePathLine, headerLine, h]

theorem saveLines_cons (n : String) (c : Configuration) (tl : Store) :
    saveLines ((n, c) :: tl) =
      headerLine n :: activeLine c.active :: urlLine c.url ::
        ((match c.clone_path with
          | some p => [clonePathLine p]
          | none => []) ++ saveLines tl) := by
  simp [saveLines, sectionLines]

/-! Lemmas about the store operations. -/

theorem lookup_insert_self (st : Store) (n : String) (c : Configuration) :
    lookupStore (insertConfig st n c) n = some c := by
  induction st with
  | nil => simp [insertConfig, lookupStore]
  | cons p tl ih =>
    obtain ⟨k, v⟩ := p
    by_cases h : k = n
    · simp [insertConfig, h, lookupStore]
    · simp [insertConfig, h, lookupStore, ih]

theorem lookup_insert_ne (st : Store) (n m : String) (c : Configuration)
    (h : m ≠ n) : lookupStore (insertConfig st n c) m = lookupStore st m := by
  have hnm : n ≠ m := Ne.symm h
  induction st with
  | nil => simp [insertConfig, lookupStore, hnm]
  | cons p tl ih =>
    obtain ⟨k, v⟩ := p
    by_cases hk : k = n
    · subst hk
      simp [insertConfig, lookupStore, hnm]
    · simp only [insertConfig, if_neg hk, lookupStore]
      by_cases hm : k = m
      · simp [hm]
      · simp [hm, ih]

theorem lookup_setActive_self (b : Bool) (st : Store) (n : String) :
    lookupStore (setActive b st n) n =
      (lookupStore st n).map (fun c => Configuration.mk b c.url c.clone_path) := by
  induction st with
  | nil => simp [setActive, lookupStore]
  | cons p tl ih =>
    obtain ⟨k, v⟩ := p
    by_cases h : k = n
    · simp [setActive, h, lookupStore]
    · simp [setActive, h, lookupStore, ih]

theorem lookup_setActive_ne (b : Bool) (st : Store) (n m : String)
    (h : m ≠ n) : lookupStore (setActive b st n) m = lookupStore st m := by
  have hnm : n ≠ m := Ne.symm h
  induction st with
  | nil => simp [setActive, lookupStore]
  | cons p tl ih =>
    obtain ⟨k, v⟩ := p
    by_cases hk : k = n
    · subst hk
      simp [setActive, lookupStore, hnm]
    · simp only [setActive, if_neg hk, lookupStore]
      by_cases hm : k = m
      · simp [hm]
      · simp [hm, ih]

theorem setActive_keys (b : Bool) (st : Store) (n : String) :
    (setActive b st n).map Prod.fst = st.map Prod.fst := by
  induction st with
  | nil => rfl
  | cons p tl ih =>
    obtain ⟨k, v⟩ := p
    by_cases h : k = n
    · simp [setActive, h]
    · simp [setActive, h, ih]

theorem containsName_setActive (b : Bool) (st : Store) (n m : String) :
    containsName (setActive b st n) m = containsName st m := by
  by_cases h : m = n
  · subst h
    simp only [containsName, lookup_setActive_self]
    cases lookupStore st m <;> simp
  · simp [containsName, lookup_setActive_ne _ _ _ _ h]

theorem setActive_absent (b : Bool) (st : Store) (n : String)
    (h : containsName st n = false) : setActive b st n = st := by
  induction st with
  | nil => rfl
  | cons p tl ih =>
    obtain ⟨k, v⟩ := p
    by_cases hk : k = n
    · simp [containsName, lookupStore, hk] at h
    · simp only [containsName, lookupStore, if_neg hk] at h
      simp [setActive, hk, ih h]

theorem setActive_setActive (b : Bool) (st : Store) (n : String) :
    setActive b (setActive b st n) n = setActive b st n := by
  induction st with
  | nil => rfl
  | cons p tl ih =>
    obtain ⟨k, v⟩ := p
    by_cases h : k = n
    · simp [setActive, h]
    · simp [setActive, h, ih]

theorem setActive_same (b : Bool) (st : Store) (n : String) (c : Configuration)
    (h : lookupStore st n = some c) (hb : c.active = b) :
    setActive b st n = st := by
  induction st with
  | nil => rfl
  | cons p tl ih =>
    obtain ⟨k, v⟩ := p
    by_cases hk : k = n
    · simp only [lookupStore, if_pos hk, Option.some.injEq] at h
      obtain ⟨va, vu, vp⟩ := v
      subst h
      have hv : va = b := hb
      subst hv
      simp [setActive, hk]
    · simp only [lookupStore, if_neg hk] at h
      simp [setActive, hk, ih h]

theorem cmdOn_store (n : String) (ns : List String) (st : Store) :
    (cmdOn (n :: ns) st).1 = (cmdOn ns (setActive true st n)).1 := by
  by_cases h : containsName st n = true
  · simp [cmdOn, h]
  · have hf : containsName st n = false := by simpa using h
    simp [cmdOn, hf, setActive_absent true st n hf]

theorem cmdOff_store (n : String) (ns : List String) (st : Store) :
    (cmdOff (n :: ns) st).1 = (cmdOff ns (setActive false st n)).1 := by
  by_cases h : containsName st n = true
  · simp [cmdOff, h]
  · have hf : containsName st n = false := by simpa using h
    simp [cmdOff, hf, setActive_absent false st n hf]

theorem setActive_map (b : Bool) (n : String) :
    ∀ st : Store, (st.map Prod.fst).Nodup →
      setActive b st n =
        st.map (fun p =>
          if p.1 = n then (p.1, Configuration.mk b p.2.url p.2.clone_path) else p) := by
  intro st
  induction st with
  | nil => intro _; rfl
  | cons p tl ih =>
    intro hnd
    obtain ⟨k, v⟩ := p
    simp only [List.map_cons, List.nodup_cons] at hnd
    by_cases h : k = n
    · subst h
      have htl : ∀ q ∈ tl,
          (if q.1 = k then (q.1, Configuration.mk b q.2.url q.2.clone_path) else q) = q := by
        intro q hq
        have hqk : q.1 ≠ k := by
          intro e
          exact hnd.1 (e ▸ List.mem_map_of_mem Prod.fst hq)
        simp [hqk]
      simp [setActive, List.map_congr_left htl]
    · simp only [setActive, if_neg h, List.map_cons, ih hnd.2]

theorem cmdOn_map (names : List String) :
    ∀ st : Store, (st.map Prod.fst).Nodup →
      (cmdOn names st).1 =
        st.map (fun p =>
          if names.contains p.1 then (p.1, Configuration.mk true p.2.url p.2.clone_path)
          else p) := by
  induction names with
  | nil =>
    intro st _
    simp [cmdOn]
  | cons n ns ih =>
    intro st hnd
    rw [cmdOn_store]
    have hnd2 : ((setActive true st n).map Prod.fst).Nodup := by
      rw [setActive_keys]
      exact hnd
    rw [ih (setActive true st n) hnd2, setActive_map true n st hnd, List.map_map]
    apply List.map_congr_left
    intro p _
    by_cases hpn : p.1 = n
    · simp [Function.comp, hpn]
    · simp [Function.comp, hpn]

theorem cmdOff_map (names : List String) :
    ∀ st : Store, (st.map Prod.fst).Nodup →
      (cmdOff names st).1 =
        st.map (fun p =>
          if names.contains p.1 then (p.1, Configuration.mk false p.2.url p.2.clone_path)
          else p) := by
  induction names with
  | nil =>
    intro st _
    simp [cmdOff]
  | cons n ns ih =>
    intro st hnd
    rw [cmdOff_store]
    have hnd2 : ((setActive false st n).map Prod.fst).Nodup := by
      rw [setActive_keys]
      exact hnd
    rw [ih (setActive false st n) hnd2, setActive_map false n st hnd, List.map_map]
    apply List.map_congr_left
    intro p _
    by_cases hpn : p.1 = n
    · simp [Function.comp, hpn]
    · simp [Function.comp, hpn]

theorem cmdAdd_store (n : String) (ns : List String) (input : List String) (st : Store) :
    (cmdAdd (n :: ns) input st).1 =
      (cmdAdd ns input.tail
        (insertConfig st n (Configuration.mk true (trimString (input.headD "")) none))).1 := by
  simp [cmdAdd]

theorem cmdAdd_lookup_notMem (ns : List String) (m : String) (h : m ∉ ns) :
    ∀ input st, lookupStore (cmdAdd ns input st).1 m = lookupStore st m := by
  induction ns with
  | nil =>
    intro input st
    simp [cmdAdd]
  | cons n ns ih =>
    intro input st
    have hm : m ≠ n := by
      intro e
      exact h (e ▸ List.mem_cons_self n ns)
    rw [cmdAdd_store, ih (fun hh => h (List.mem_cons_of_mem _ hh))]
    exact lookup_insert_ne _ _ _ _ hm

theorem cmdAdd_lookup (names : List String) (n : String) :
    names.Nodup → n ∈ names →
      ∀ input st, lookupStore (cmdAdd names input st).1 n =
        some (Configuration.mk true (trimString (input.getD (names.indexOf n) "")) none) := by
  induction names with
  | nil =>
    intro _ hmem
    cases hmem
  | cons m ms ih =>
    intro hnd hmem input st
    by_cases h : n = m
    · subst h
      have hnot : n ∉ ms := (List.nodup_cons.mp hnd).1
      rw [cmdAdd_store, cmdAdd_lookup_notMem ms n hnot, lookup_insert_self,
        List.indexOf_cons_self]
      have : input.getD 0 "" = input.headD "" := by
        cases input <;> rfl
      rw [this]
    · have hmem2 : n ∈ ms := by
        rcases List.mem_cons.mp hmem with e | e
        · exact absurd e h
        · exact e
      rw [cmdAdd_store, ih (List.Nodup.of_cons hnd) hmem2 input.tail _,
        List.indexOf_cons_ne _ (Ne.symm h)]
      have : input.tail.getD (ms.indexOf n) "" = input.getD (ms.indexOf n + 1) "" := by
        cases input <;> rfl
      rw [this]

/-! Lemmas about the Start loop. -/

theorem attachEntry_invs (env : Env) (n id : String) :
    (attachEntry env n id).2 = [Invocation.networkConnect id] := by
  rw [attachEntry]
  by_cases h : (env.networkConnect id).success = true <;> simp [h]

theorem upsOf_append (l1 l2 : List Invocation) :
    upsOf (l1 ++ l2) = upsOf l1 ++ upsOf l2 := by
  simp [upsOf]

theorem upsOf_connect_flatten (ids : List String) :
    upsOf ((ids.map (fun id => [Invocation.networkConnect id])).flatten) = [] := by
  induction ids with
  | nil => rfl
  | cons i is ih =>
    simp only [List.map_cons, List.flatten_cons, upsOf_append, ih]
    rfl

theorem upsOf_cons_up (cp : String) (l : List Invocation) :
    upsOf (Invocation.composeUp cp :: l) = cp :: upsOf l := by
  simp [upsOf, List.filterMap_cons]

theorem upsOf_cons_ps (cp : String) (l : List Invocation) :
    upsOf (Invocation.composePs cp :: l) = upsOf l := by
  simp [upsOf, List.filterMap_cons]

theorem upsOf_cons_inspect (l : List Invocation) :
    upsOf (Invocation.networkInspect :: l) = upsOf l := by
  simp [upsOf, List.filterMap_cons]

theorem upsOf_cons_create (l : List Invocation) :
    upsOf (Invocation.networkCreate :: l) = upsOf l := by
  simp [upsOf, List.filterMap_cons]

theorem upsOf_startEntry (env : Env) (p : String × Configuration) :
    upsOf (startEntry env p).2 =
      (if p.2.active then p.2.clone_path else none).toList := by
  rw [startEntry]
  by_cases ha : p.2.active = true
  · cases hcp : p.2.clone_path with
    | none => simp [ha, hcp, upsOf]
    | some cp =>
      by_cases hu : (env.composeUp cp).success = true
      · have hmm : ((splitIds (env.composePs cp)).map (attachEntry env p.1)).map
            (fun a => a.2) =
            (splitIds (env.composePs cp)).map (fun id => [Invocation.networkConnect id]) := by
          rw [List.map_map]
          apply List.map_congr_left
          intro id _
          exact attachEntry_invs env p.1 id
        simp only [ha, hcp, hu, if_true]
        rw [upsOf_cons_up, upsOf_cons_ps, hmm, upsOf_connect_flatten]
        simp
      · simp [hu, ha, hcp, upsOf]
  · simp [ha, upsOf]

theorem upsOf_startLoop (env : Env) (st : Store) :
    upsOf ((st.map (fun p => (startEntry env p).2)).flatten) =
      st.filterMap (fun p => if p.2.active then p.2.clone_path else none) := by
  induction st with
  | nil => rfl
  | cons p tl ih =>
    simp only [List.map_cons, List.flatten_cons, upsOf_append, ih, upsOf_startEntry]
    cases h : (fun p : String × Configuration =>
        if p.2.active then p.2.clone_path else none) p with
    | none => simp [List.filterMap_cons, h]
    | some cp => simp [List.filterMap_cons, h]

theorem parse_save (st : Store) : parseSections (saveLines st) = some st := by
  induction st with
  | nil => rfl
  | cons p tl ih =>
    obtain ⟨n, c⟩ := p
    obtain ⟨a, u, cp⟩ := c
    cases cp with
    | none =>
      rw [saveLines_cons]
      cases htl : tl with
      | nil =>
        simp [parseSections, parseHeaderLine_header, parseActiveLine_active,
          parseUrlLine_url]
      | cons q tl2 =>
        obtain ⟨n2, c2⟩ := q
        rw [htl] at ih
        rw [saveLines_cons]
        simp only [List.nil_append]
        simp [parseSections, parseHeaderLine_header, parseActiveLine_active,
          parseUrlLine_url, parseClonePathLine_headerLine, ← saveLines_cons, ih]
    | some pth =>
      rw [saveLines_cons]
      simp [parseSections, parseHeaderLine_header, parseActiveLine_active,
        parseUrlLine_url, parseClonePathLine_clonePath, ih]

/-! The claims. -/

/-- Claim C1, counterexample: when the start subcommand finds no comphost
network and the network create fails, main returns early and the final
serialize-and-write of the store is skipped, so the mapping is not always
written back before the process exits. -/
theorem start_skips_final_write :
    (runCommand Commands.Start netFailEnv []).saved = false := rfl

/-- Claim C1 (amended): the dispatcher reaches the final serialize-and-
write of the whole mapping on every invocation, except that the start
subcommand returns before the write when the comphost network inspect and
the subsequent network create both fail. -/
theorem runCommand_saved_iff (cmd : Commands) (env : Env) (st : Store) :
    (runCommand cmd env st).saved = false ↔
      cmd = Commands.Start ∧ env.networkInspectOk = false ∧
        env.networkCreateRes.success = false := by
  cases cmd with
  | Add names => simp [runCommand]
  | On names => simp [runCommand]
  | Off names => simp [runCommand]
  | Clone => simp [runCommand, runClone]
  | Start =>
    by_cases hi : env.networkInspectOk = true
    · simp [runCommand, runStart, hi]
    · have hif : env.networkInspectOk = false := by simpa using hi
      by_cases hc : env.networkCreateRes.success = true
      · simp [runCommand, runStart, hif, hc]
      · have hcf : env.networkCreateRes.success = false := by simpa using hc
        simp [runCommand, runStart, hif, hcf]
  | Stop => simp [runCommand, runStop]
  | ListNames => simp [runCommand]

/-- Claim C2: saving any mapping to the store file and loading it back
yields the same mapping: the same names and, per name, the same active
flag, url and clone_path. -/
theorem save_load_roundtrip (st : Store) :
    loadStore (FileState.present (saveLines st)) = Except.ok st := by
  by_cases h : (saveLines st).isEmpty = true
  · have h2 : saveLines st = [] := by simpa using h
    have h3 := parse_save st
    rw [h2] at h3
    have h4 : ([] : Store) = st := by simpa [parseSections] using h3
    subst h4
    rfl
  · simp [loadStore, h, parse_save]

/-- Claim C3: loading yields the empty mapping for a missing or empty
file, while an unreadable file or unparsable content is a fatal error,
and a fatal load error makes main abort before any subcommand logic, so
no output, invocation or store change is produced. -/
theorem loadStore_error_handling :
    loadStore FileState.missing = Except.ok [] ∧
    loadStore (FileState.present []) = Except.ok [] ∧
    loadStore FileState.unreadable = Except.error "Could not read file" ∧
    (∀ ls, parseSections ls = none →
      loadStore (FileState.present ls) = Except.error "Could not parse TOML") ∧
    (∀ cmd env f e, loadStore f = Except.error e →
      runMain cmd env f = MainResult.fatal e) := by
  refine ⟨rfl, rfl, rfl, ?_, ?_⟩
  · intro ls h
    cases ls with
    | nil => simp [parseSections] at h
    | cons l ls2 => simp [loadStore, h]
  · intro cmd env f e h
    simp [runMain, h]

/-- Claim C3, witness: a one-line junk file fails to parse, load turns it
into the fatal parse error, and main aborts with that message. -/
theorem loadStore_error_handling_witness :
    parseSections ["junk"] = none ∧
    loadStore (FileState.present ["junk"]) = Except.error "Could not parse TOML" ∧
    runMain Commands.Stop okEnv (FileState.present ["junk"]) =
      MainResult.fatal "Could not parse TOML" := by
  have h1 : parseSections ["junk"] = none := rfl
  refine ⟨h1, loadStore_error_handling.2.2.2.1 ["junk"] h1, ?_⟩
  exact loadStore_error_handling.2.2.2.2 Commands.Stop okEnv _ _
    (loadStore_error_handling.2.2.2.1 ["junk"] h1)

/-- Claim C4: during clone, for an active configuration whose target
directory does not exist, a failed git clone leaves clone_path unset and
prints the captured stderr, while a successful one records
destination/name as the clone path. -/
theorem clone_failure_and_success (env : Env) (st : Store) (n : String)
    (c : Configuration) (hmem : (n, c) ∈ st) (hact : c.active = true)
    (hcp : c.clone_path = none)
    (hmeta : env.fsMetadata (promptDir env ++ "/" ++ n) = none) :
    ((env.gitClone c.url n (promptDir env)).success = false →
      (cloneEntry env (promptDir env) (n, c)).1.2.clone_path = none ∧
      OutLine.err (env.gitClone c.url n (promptDir env)).stderr ∈
        (runClone env st).outputs) ∧
    ((env.gitClone c.url n (promptDir env)).success = true →
      (n, Configuration.mk c.active c.url (some (promptDir env ++ "/" ++ n))) ∈
        (runClone env st).finalStore) := by
  constructor
  · intro hfail
    constructor
    · simp [cloneEntry, hact, hmeta, hfail, hcp]
    · have hout : OutLine.err (env.gitClone c.url n (promptDir env)).stderr ∈
          (cloneEntry env (promptDir env) (n, c)).2.1 := by
        simp [cloneEntry, hact, hmeta, hfail]
      simp only [runClone]
      refine List.mem_cons_of_mem _ ?_
      rw [List.mem_flatten]
      exact ⟨(cloneEntry env (promptDir env) (n, c)).2.1,
        List.mem_map_of_mem _ (List.mem_map_of_mem _ hmem), hout⟩
  · intro hsucc
    have h1 : (cloneEntry env (promptDir env) (n, c)).1 =
        (n, Configuration.mk c.active c.url (some (promptDir env ++ "/" ++ n))) := by
      simp [cloneEntry, hact, hmeta, hsucc, Configuration.clone_project]
    simp only [runClone]
    rw [← h1]
    exact List.mem_map_of_mem _ (List.mem_map_of_mem _ hmem)

/-- Claim C4, witness: with a concrete store and a failing git clone, the
clone path stays unset and the captured stderr appears in the output. -/
theorem clone_failure_and_success_witness :
    (cloneEntry cloneFailEnv (promptDir cloneFailEnv)
        ("app", Configuration.mk true "u" none)).1.2.clone_path = none ∧
    OutLine.err "fatal: repository not found" ∈
      (runClone cloneFailEnv [("app", Configuration.mk true "u" none)]).outputs := by
  exact (clone_failure_and_success cloneFailEnv
    [("app", Configuration.mk true "u" none)] "app" (Configuration.mk true "u" none)
    (by decide) rfl rfl rfl).1 rfl

/-- Claim C5: the start subcommand always performs the network-ensure
step, and compose up is issued exactly for the clone paths of the active
configurations that have one, hence never for an active configuration
with no clone path. -/
theorem start_requires_clone_path (env : Env) (st : Store) :
    Invocation.networkInspect ∈ (runCommand Commands.Start env st).invocations ∧
    upsOf (runCommand Commands.Start env st).invocations =
      (if env.networkInspectOk || env.networkCreateRes.success then
        st.filterMap (fun p => if p.2.active then p.2.clone_path else none)
      else []) := by
  by_cases hi : env.networkInspectOk = true
  · constructor
    · simp [runCommand, runStart, hi]
    · simp only [runCommand, runStart, hi, if_true]
      rw [upsOf_cons_inspect]
      have hmm : (st.map (startEntry env)).map (fun s => s.2) =
          st.map (fun p => (startEntry env p).2) := by
        rw [List.map_map]
        rfl
      rw [hmm, upsOf_startLoop]
      simp [hi]
  · have hif : env.networkInspectOk = false := by simpa using hi
    by_cases hc : env.networkCreateRes.success = true
    · constructor
      · simp [runCommand, runStart, hif, hc]
      · simp only [runCommand, runStart, hif, hc, if_true, if_false,
          Bool.false_eq_true]
        rw [upsOf_cons_inspect, upsOf_cons_create]
        have hmm : (st.map (startEntry env)).map (fun s => s.2) =
            st.map (fun p => (startEntry env p).2) := by
          rw [List.map_map]
          rfl
        rw [hmm, upsOf_startLoop]
        simp [hif, hc]
    · have hcf : env.networkCreateRes.success = false := by simpa using hc
      constructor
      · simp [runCommand, runStart, hif, hcf]
      · simp [runCommand, runStart, hif, hcf, upsOf]

/-- Claim C6: during clone, an active configuration whose target path
already exists as a directory gets that path recorded as its clone path
and causes no git invocation. -/
theorem clone_skip_existing (env : Env) (st : Store) (n : String)
    (c : Configuration) (hmem : (n, c) ∈ st) (hact : c.active = true)
    (hmeta : env.fsMetadata (promptDir env ++ "/" ++ n) = some true) :
    (n, Configuration.mk c.active c.url (some (promptDir env ++ "/" ++ n))) ∈
      (runClone env st).finalStore ∧
    (cloneEntry env (promptDir env) (n, c)).2.2 = [] := by
  constructor
  · have h1 : (cloneEntry env (promptDir env) (n, c)).1 =
        (n, Configuration.mk c.active c.url (some (promptDir env ++ "/" ++ n))) := by
      simp [cloneEntry, hact, hmeta, Configuration.clone_project]
    simp only [runClone]
    rw [← h1]
    exact List.mem_map_of_mem _ (List.mem_map_of_mem _ hmem)
  · simp [cloneEntry, hact, hmeta]

/-- Claim C6, witness: a concrete active entry whose target directory
exists is adopted without invoking git. -/
theorem clone_skip_existing_witness :
    ("app", Configuration.mk true "u" (some "dest/app")) ∈
      (runClone dirExistsEnv [("app", Configuration.mk true "u" none)]).finalStore ∧
    (cloneEntry dirExistsEnv (promptDir dirExistsEnv)
        ("app", Configuration.mk true "u" none)).2.2 = [] := by
  exact clone_skip_existing dirExistsEnv [("app", Configuration.mk true "u" none)]
    "app" (Configuration.mk true "u" none) (by decide) rfl rfl

/-- Claim C7: running on with a present name and an absent one reports
the absent name as not found, still turns the present one on, and does so
in either argument order, so processing continues past the failure. -/
theorem on_reports_missing_and_continues (st : Store) (a b : String)
    (ha : containsName st a = true) (hb : containsName st b = false) :
    (lookupStore (cmdOn [a, b] st).1 a =
        (lookupStore st a).map (fun c => Configuration.mk true c.url c.clone_path) ∧
      OutLine.err (notFoundMsg b) ∈ (cmdOn [a, b] st).2) ∧
    (lookupStore (cmdOn [b, a] st).1 a =
        (lookupStore st a).map (fun c => Configuration.mk true c.url c.clone_path) ∧
      OutLine.err (notFoundMsg b) ∈ (cmdOn [b, a] st).2) := by
  have hb1 : containsName (setActive true st a) b = false := by
    rw [containsName_setActive]
    exact hb
  refine ⟨⟨?_, ?_⟩, ⟨?_, ?_⟩⟩
  · simp [cmdOn, ha, hb1, lookup_setActive_self]
  · simp [cmdOn, ha, hb1]
  · simp [cmdOn, hb, ha, lookup_setActive_self]
  · simp [cmdOn, hb, ha]

/-- Claim C7, witness: on applied to a concrete store with one known and
one unknown name. -/
theorem on_reports_missing_and_continues_witness :
    (lookupStore (cmdOn ["app", "ghost"] [("app", Configuration.mk false "u" none)]).1
        "app" =
      (lookupStore [("app", Configuration.mk false "u" none)] "app").map
        (fun c => Configuration.mk true c.url c.clone_path) ∧
    OutLine.err (notFoundMsg "ghost") ∈
      (cmdOn ["app", "ghost"] [("app", Configuration.mk false "u" none)]).2) := by
  exact (on_reports_missing_and_continues [("app", Configuration.mk false "u" none)]
    "app" "ghost" (by decide) (by decide)).1

/-- Claim C8: on is idempotent on a present name, and off on an already
inactive configuration leaves the store unchanged and prints only the
turned-off line, no error. -/
theorem on_off_idempotent (st : Store) (n : String) (c : Configuration)
    (h : lookupStore st n = some c) :
    ((cmdOn [n] ((cmdOn [n] st).1)).1 = (cmdOn [n] st).1 ∧
      lookupStore ((cmdOn [n] ((cmdOn [n] st).1)).1) n =
        some (Configuration.mk true c.url c.clone_path)) ∧
    (c.active = false →
      (cmdOff [n] st).1 = st ∧ (cmdOff [n] st).2 = [OutLine.out (turnedOffMsg n)]) := by
  have hc : containsName st n = true := by simp [containsName, h]
  have hst1 : (cmdOn [n] st).1 = setActive true st n := by simp [cmdOn, hc]
  have hc1 : containsName (setActive true st n) n = true := by
    rw [containsName_setActive]
    exact hc
  refine ⟨⟨?_, ?_⟩, ?_⟩
  · rw [hst1]
    simp [cmdOn, hc1, setActive_setActive]
  · rw [hst1]
    simp [cmdOn, hc1, setActive_setActive, lookup_setActive_self, h]
  · intro hact
    refine ⟨?_, ?_⟩
    · simp [cmdOff, hc, setActive_same false st n c h hact]
    · simp [cmdOff, hc]

/-- Claim C8, witness: a concrete inactive entry, turned on twice and
turned off while already off. -/
theorem on_off_idempotent_witness :
    ((cmdOn ["app"] ((cmdOn ["app"] [("app", Configuration.mk false "u" none)]).1)).1 =
        (cmdOn ["app"] [("app", Configuration.mk false "u" none)]).1 ∧
      lookupStore
          ((cmdOn ["app"] ((cmdOn ["app"] [("app", Configuration.mk false "u" none)]).1)).1)
          "app" = some (Configuration.mk true "u" none)) ∧
    ((cmdOff ["app"] [("app", Configuration.mk false "u" none)]).1 =
        [("app", Configuration.mk false "u" none)] ∧
      (cmdOff ["app"] [("app", Configuration.mk false "u" none)]).2 =
        [OutLine.out (turnedOffMsg "app")]) := by
  have h := on_off_idempotent [("app", Configuration.mk false "u" none)] "app"
    (Configuration.mk false "u" none) (by decide)
  exact ⟨h.1, h.2 rfl⟩

/-- Claim C9: for every name passed to add, the stored url is the raw
stdin line for that name with surrounding whitespace (newline included)
trimmed, the record is active with no clone path, and it overwrites any
prior entry of that name. -/
theorem add_stores_trimmed_url (names : List String) (env : Env) (st : Store)
    (n : String) (hnd : names.Nodup) (hmem : n ∈ names) :
    lookupStore (runCommand (Commands.Add names) env st).finalStore n =
      some (Configuration.mk true
        (trimString (env.stdin.getD (names.indexOf n) "")) none) := by
  simp only [runCommand]
  exact cmdAdd_lookup names n hnd hmem env.stdin st

/-- Claim C9, witness: adding one name over an existing entry of the same
name stores the trimmed url from stdin. -/
theorem add_stores_trimmed_url_witness :
    lookupStore
        (runCommand (Commands.Add ["app"]) okEnv
          [("app", Configuration.mk false "old" (some "p"))]).finalStore "app" =
      some (Configuration.mk true
        (trimString (okEnv.stdin.getD ((["app"] : List String).indexOf "app") ""))
        none) := by
  exact add_stores_trimmed_url ["app"] okEnv
    [("app", Configuration.mk false "old" (some "p"))] "app" (by decide) (by decide)

/-- Claim C10: on and off only flip the active flag of the named entries:
each entry keeps its name, url and clone path, and entries whose name is
not listed are completely unchanged. -/
theorem on_off_touch_only_active (names : List String) (st : Store)
    (hnd : (st.map Prod.fst).Nodup) :
    (cmdOn names st).1 =
      st.map (fun p =>
        if names.contains p.1 then (p.1, Configuration.mk true p.2.url p.2.clone_path)
        else p) ∧
    (cmdOff names st).1 =
      st.map (fun p =>
        if names.contains p.1 then (p.1, Configuration.mk false p.2.url p.2.clone_path)
        else p) ∧
    ((cmdOn names st).1).map (fun p => (p.1, p.2.url, p.2.clone_path)) =
      st.map (fun p => (p.1, p.2.url, p.2.clone_path)) ∧
    ((cmdOff names st).1).map (fun p => (p.1, p.2.url, p.2.clone_path)) =
      st.map (fun p => (p.1, p.2.url, p.2.clone_path)) := by
  refine ⟨cmdOn_map names st hnd, cmdOff_map names st hnd, ?_, ?_⟩
  · rw [cmdOn_map names st hnd, List.map_map]
    apply List.map_congr_left
    intro p _
    by_cases h : p.1 ∈ names <;> simp [Function.comp, h]
  · rw [cmdOff_map names st hnd, List.map_map]
    apply List.map_congr_left
    intro p _
    by_cases h : p.1 ∈ names <;> simp [Function.comp, h]

/-- Claim C10, witness: on and off over a concrete two-entry store with
one listed name. -/
theorem on_off_touch_only_active_witness :
    (cmdOn ["a"] [("a", Configuration.mk false "u" none),
        ("b", Configuration.mk true "v" (some "p"))]).1 =
      [("a", Configuration.mk true "u" none),
        ("b", Configuration.mk true "v" (some "p"))] ∧
    (cmdOff ["a"] [("a", Configuration.mk false "u" none),
        ("b", Configuration.mk true "v" (some "p"))]).1 =
      [("a", Configuration.mk false "u" none),
        ("b", Configuration.mk true "v" (some "p"))] := by
  have h := on_off_touch_only_active ["a"]
    [("a", Configuration.mk false "u" none),
      ("b", Configuration.mk true "v" (some "p"))] (by decide)
  refine ⟨?_, ?_⟩
  · rw [h.1]
    decide
  · rw [h.2.1]
    decide

end Comphost
